import Mathlib

/-!
Verification of the command-dispatch core (alias-aware registry,
nested super-command resolution, plugin adapter) against its
natural-language specification.

The Go source is embedded shallowly:

* Go maps become association lists with unique keys (`mapLookup`,
  `mapInsert`, `mapDelete` mirror map read, write and delete).
* The mutually recursive `Command` / `SuperCommand` / `Registry` /
  `Action` types become a nested inductive `Cmd` over the polymorphic
  structures `ActionT`, `RegistryT` and `SuperT`.
* Fallible Go functions that also mutate their receiver become pure
  functions returning the updated value paired with an `Option String`
  error (Go returns `nil` for success).
* Interactions with external collaborators (the flag-parsing library,
  spawned plugin processes, the logger) are passed in as explicit data.
-/

/-- Error values crossing the dispatcher layers.  `errSilent`,
`rcPassthrough` and the error-classification helpers live in repository
files outside the provided sources; they are modelled from the spec's
error taxonomy (silent sentinel; pass-through error carrying a literal
process exit status; unrecognized-command condition; `execError` stands
for Go's `*exec.Error` (spawn failure) and `exitError` for
`*exec.ExitError` with its `Exited()` flag and exit status). -/
inductive GoErr : Type where
  | errSilent
  | rcPassthrough (code : Int)
  | unrecognized (name : String)
  | execError (msg : String)
  | exitError (exited : Bool) (status : Int)
  | goError (msg : String)
deriving DecidableEq

/-- The part of `cmd.Info` consumed by the registry and dispatcher code
under verification (`Name`, `Purpose`, `Aliases`). -/
structure Info where
  Name : String
  Purpose : String
  Aliases : List String
deriving DecidableEq

/-- `cmd.Action`, polymorphic in the command type so that it can appear
nested inside the `Cmd` inductive.  `Command` is an `Option` because the
Go field is a nilable interface. -/
structure ActionT (α : Type) where
  Name : String
  AliasedName : String
  Command : Option α
  Aliases : List String
  Replacement : String

/-- `cmd.Registry`: insertion-ordered name list, canonical action map,
alias map, default name.  Go maps are association lists here. -/
structure RegistryT (α : Type) where
  order : List String
  actions : List (String × ActionT α)
  aliases : List (String × String)
  defaultName : String

/-- The fields of `cmd.SuperCommand` that the registry and `Init` code
paths read.  `subcmds` is always a registry value: `init()` populates it
before any registration, so the source's `reg == nil` guard in `LookUp`
is vacuous for embedded super-commands. -/
structure SuperT (α : Type) where
  Name : String
  Purpose : String
  Aliases : List String
  showDescription : Bool
  missingCallback : Option Nat
  subcmds : RegistryT α

/-- `cmd.Command` values as the registry code distinguishes them: a
plain (leaf) command carrying its `Info()` result (an `Option` because
`Info()` may return a nil pointer, as `missingCommand.Info` and
`PluginCommand.Info` do), a `*SuperCommand`, or a `missingCommand`
synthesized by `SuperCommand.Init` for an unresolved name. -/
inductive Cmd : Type where
  | leaf (info : Option Info)
  | super (sc : SuperT Cmd)
  | missing (callback : Nat) (superName : String) (name : String) (args : List String)

abbrev CAction := ActionT Cmd
abbrev Registry := RegistryT Cmd

/-- The zero value of Go's `Action` struct. -/
def emptyAction : CAction :=
  { Name := "", AliasedName := "", Command := none, Aliases := [], Replacement := "" }

/-- The registry value `NewRegistry` starts from: empty maps, no order,
no default name. -/
def emptyRegistry : Registry :=
  { order := [], actions := [], aliases := [], defaultName := "" }

/-- Go map read `v, ok := m[k]` (the `ok` is `(mapLookup m k).isSome`). -/
def mapLookup {α : Type} : List (String × α) → String → Option α
  | [], _ => none
  | (k, v) :: rest, key => if k = key then some v else mapLookup rest key

/-- Go map write `m[k] = v`: replace the value if the key is present,
otherwise append the binding. -/
def mapInsert {α : Type} : List (String × α) → String → α → List (String × α)
  | [], key, v => [(key, v)]
  | (k, w) :: rest, key, v =>
    if k = key then (key, v) :: rest else (k, w) :: mapInsert rest key v

/-- Go map delete `delete(m, k)`.  (Removes every binding of the key;
with the unique-key representation invariant this is Go's behavior.) -/
def mapDelete {α : Type} : List (String × α) → String → List (String × α)
  | [], _ => []
  | (k, v) :: rest, key =>
    if k = key then mapDelete rest key else (k, v) :: mapDelete rest key

/-- The key list of an association list (the Go map's key set). -/
def keysOf {α : Type} (m : List (String × α)) : List String := m.map Prod.fst

/-- `removeString` (topic.go): delete the first occurrence of `target`,
reporting whether one was found. -/
def removeString : List String → String → List String × Bool
  | [], _ => ([], false)
  | item :: rest, target =>
    if item = target then (rest, true)
    else
      let r := removeString rest target
      (item :: r.1, r.2)

/-- `Action.Validate`. -/
def ActionT.Validate (a : CAction) : Option String :=
  if a.Name = "" then some "action missing name"
  else if a.Command.isNone then some "action missing command"
  else none

/-- `Action.NewAlias`: a fresh `Action` with only `Name`, `AliasedName`
and `Command` set; `Aliases` and `Replacement` are the zero values. -/
def ActionT.NewAlias (a : CAction) (al : String) : CAction :=
  { Name := al, AliasedName := a.Name, Command := a.Command,
    Aliases := [], Replacement := "" }

/-- `Registry.lookUp` (lower-case, single name): canonical hit, else one
level of alias indirection returning an alias view, else the zero action
and `false`. -/
def RegistryT.lookUp (reg : Registry) (name : String) : CAction × Bool :=
  match mapLookup reg.actions name with
  | some action => (action, true)
  | none =>
    match mapLookup reg.aliases name with
    | some aliased =>
      match mapLookup reg.actions aliased with
      | some action => (action.NewAlias name, true)
      | none => (emptyAction, false)
    | none => (emptyAction, false)

/-- The traversal loop inside `Registry.LookUp`: resolve each path
element, descending into a sub-registry when the resolved action wraps a
`*SuperCommand`, and stopping (keeping the last resolved action) when a
resolution fails or a non-super command is reached. -/
def RegistryT.lookUpLoop : Registry → List String → CAction → CAction
  | _, [], acc => acc
  | reg, name :: rest, acc =>
    match reg.lookUp name with
    | (_, false) => acc
    | (next, true) =>
      match next.Command with
      | some (Cmd.super sc) => RegistryT.lookUpLoop sc.subcmds rest next
      | _ => next

/-- `Registry.LookUp`: empty path resolves the default name; otherwise
run the traversal loop and report found exactly when the accumulated
action has a non-empty name. -/
def RegistryT.LookUp (reg : Registry) (path : List String) : CAction × Bool :=
  match path with
  | [] => reg.lookUp reg.defaultName
  | _ :: _ =>
    let action := reg.lookUpLoop path emptyAction
    if action.Name = "" then (action, false) else (action, true)

/-- `Registry.Add`.  Returns the updated registry and the error (Go
mutates the receiver and returns only the error). -/
def RegistryT.Add (reg : Registry) (action : CAction) : Registry × Option String :=
  match action.Validate with
  | some err => (reg, some err)
  | none =>
    if (reg.LookUp [action.Name]).2 then
      (reg, some ("command \"" ++ action.Name ++ "\" already registered"))
    else
      ({ reg with actions := mapInsert reg.actions action.Name action,
                  order := reg.order ++ [action.Name] }, none)

/-- `Registry.AddAlias`. -/
def RegistryT.AddAlias (reg : Registry) (name al : String) : Registry × Option String :=
  match mapLookup reg.actions name with
  | none => (reg, some ("action \"" ++ name ++ "\" not found"))
  | some _ =>
    if (reg.LookUp [al]).2 then
      (reg, some ("action \"" ++ al ++ "\" already added"))
    else
      ({ reg with aliases := mapInsert reg.aliases al name,
                  order := reg.order ++ [al] }, none)

/-- `Registry.remove`: delete a canonical entry, else an alias entry,
together with its order-list slot.  (The Go function also returns the
removed action; no caller in the verified sources uses it.) -/
def RegistryT.remove (reg : Registry) (name : String) : Registry :=
  match mapLookup reg.actions name with
  | some _ =>
    { reg with actions := mapDelete reg.actions name,
               order := (removeString reg.order name).1 }
  | none =>
    match mapLookup reg.aliases name with
    | none => reg
    | some _ =>
      { reg with aliases := mapDelete reg.aliases name,
                 order := (removeString reg.order name).1 }

/-- The alias loop of `Registry.AddWithAliases`, with the accumulated
`added` list: on an alias failure remove the canonical name and every
alias added in this call, then return the error. -/
def RegistryT.addAliasesLoop (reg : Registry) (name : String) :
    List String → List String → Registry × Option String
  | [], _ => (reg, none)
  | al :: rest, added =>
    match reg.AddAlias name al with
    | (reg1, some err) =>
      (added.foldl (fun r x => r.remove x) (reg1.remove name), some err)
    | (reg1, none) => reg1.addAliasesLoop name rest (added ++ [al])

/-- `Registry.AddWithAliases`. -/
def RegistryT.AddWithAliases (reg : Registry) (action : CAction) : Registry × Option String :=
  match reg.Add action with
  | (reg1, some err) => (reg1, some err)
  | (reg1, none) => reg1.addAliasesLoop action.Name action.Aliases []

/-- `Registry.Names`.  The Go function hands back a defensive copy of
the order slice; in the pure embedding the copy and the original are the
same value. -/
def RegistryT.Names (reg : Registry) : List String := reg.order

/-- `NewRegistry`: start from the empty registry and add each initial
action with its aliases, aborting on the first failure (Go returns
`nil, err`). -/
def RegistryT.NewRegistry (initial : List CAction) : Option Registry :=
  initial.foldlM
    (fun reg action =>
      match reg.AddWithAliases action with
      | (_, some _) => none
      | (reg1, none) => some reg1)
    emptyRegistry

/-- The Go panic message raised by dereferencing a nil pointer, the
fault `newActionFromCommand` hits when `cmd.Info()` returns nil. -/
def nilDerefMsg : String :=
  "runtime error: invalid memory address or nil pointer dereference"

/-- The Go panic raised by calling a method on a nil interface value,
as `RegisterDeprecated` does with `check.Deprecated()` when `check` is
nil. -/
def nilCheckMsg : String :=
  "runtime error: invalid memory address or nil pointer dereference (check.Deprecated)"

/-- The `Info()` method of an embedded command.  A leaf carries its
(possibly nil) result; a super-command is modelled in its
registration-time configuration, where `c.action` is the zero value, its
validation fails and `Info()` falls to the summary branch whose name is
`c.Name`; a `missingCommand` returns nil (its own comment claims the
method is never called). -/
def cmdInfo : Cmd → Option Info
  | Cmd.leaf info => info
  | Cmd.super sc => some { Name := sc.Name, Purpose := sc.Purpose, Aliases := sc.Aliases }
  | Cmd.missing _ _ _ _ => none

/-- `newActionFromCommand`: reads `cmd.Info()` and dereferences the
result for its `Name`.  When `Info()` returns nil this is a nil-pointer
dereference, modelled as `none` (the Go code panics there). -/
def newActionFromCommand (cmd : Cmd) : Option CAction :=
  match cmdInfo cmd with
  | none => none
  | some info =>
    some { Name := info.Name, AliasedName := "", Command := some cmd,
           Aliases := info.Aliases, Replacement := "" }

/-- Modelled from the spec: `CheckEmpty` (a helper outside the provided
sources) fails exactly when positional arguments remain. -/
def CheckEmpty (args : List String) : Option GoErr :=
  match args with
  | [] => none
  | arg :: _ => some (GoErr.goError ("unrecognized args: " ++ arg))

/-- Possible outcomes of `SuperCommand.Init`.  `external` marks the
branches that hand control to external collaborators (flag parsing and
the selected subcommand's own `Init`), carrying the action resolved so
far; `done` is the show-description early return; `panicked` is a Go
runtime panic. -/
inductive InitOutcome : Type where
  | ok (action : CAction)
  | done (err : Option GoErr)
  | fail (err : GoErr)
  | panicked (msg : String)
  | external (action : CAction) (rest : List String)

/-- `SuperCommand.Init`: show-description short-circuit; empty args
resolve the default action; otherwise look up `args[0]`.  On a miss with
no callback, fail with the unrecognized-command error; with a callback,
build an action from a synthesized `missingCommand` — whose `Info()` is
nil, so `newActionFromCommand` dereferences a nil pointer.  On a hit,
flag handling and the subcommand `Init` are external. -/
def SuperCommandInit (c : SuperT Cmd) (args : List String) : InitOutcome :=
  if c.showDescription then InitOutcome.done (CheckEmpty args)
  else
    match args with
    | [] => InitOutcome.external (c.subcmds.LookUp []).1 []
    | name :: rest =>
      match c.subcmds.LookUp [name] with
      | (action, true) => InitOutcome.external action rest
      | (_, false) =>
        match c.missingCallback with
        | none =>
          InitOutcome.fail (GoErr.goError ("unrecognized command: " ++ c.Name ++ " " ++ name))
        | some cb =>
          match newActionFromCommand (Cmd.missing cb c.Name name rest) with
          | some a => InitOutcome.ok a
          | none => InitOutcome.panicked nilDerefMsg

/-- Result of `SuperCommand.Register`-family calls: Go either returns
normally (with the receiver's registry updated) or panics. -/
inductive RegisterOutcome : Type where
  | returned (subcmds : Registry)
  | panicked (msg : String)

/-- `SuperCommand.Register`, as a function of the receiver's registry:
nil subcommands are ignored; a failed `AddWithAliases` panics with the
error's message. -/
def SuperCommandRegister (subcmds : Registry) (subcmd : Option Cmd) : RegisterOutcome :=
  match subcmd with
  | none => RegisterOutcome.returned subcmds
  | some cmd =>
    match newActionFromCommand cmd with
    | none => RegisterOutcome.panicked nilDerefMsg
    | some action =>
      match subcmds.AddWithAliases action with
      | (reg, none) => RegisterOutcome.returned reg
      | (_, some err) => RegisterOutcome.panicked err

/-- The `DeprecationCheck` collaborator, as data: the results of its
`Obsolete()` and `Deprecated()` calls. -/
structure DeprecationCheckData where
  obsolete : Bool
  deprecated : Bool
  replacement : String

/-- `SuperCommand.RegisterDeprecated`.  Order follows the source: nil
subcommand ignored; the action (and hence `Info()`) is computed first;
the obsolete gate only fires for a non-nil check; then
`check.Deprecated()` is called unconditionally — a nil-interface method
call (panic) when `check` is nil; finally `AddWithAliases`, panicking on
error. -/
def SuperCommandRegisterDeprecated (subcmds : Registry) (subcmd : Option Cmd)
    (check : Option DeprecationCheckData) : RegisterOutcome :=
  match subcmd with
  | none => RegisterOutcome.returned subcmds
  | some cmd =>
    match newActionFromCommand cmd with
    | none => RegisterOutcome.panicked nilDerefMsg
    | some action0 =>
      if (match check with | some ch => ch.obsolete | none => false) then
        RegisterOutcome.returned subcmds
      else
        match check with
        | none => RegisterOutcome.panicked nilCheckMsg
        | some ch =>
          let action :=
            if ch.deprecated then { action0 with Replacement := ch.replacement } else action0
          match subcmds.AddWithAliases action with
          | (reg, none) => RegisterOutcome.returned reg
          | (_, some err) => RegisterOutcome.panicked err

/-- One log line emitted by the run step. -/
inductive LogMsg : Type where
  | logError (msg : String)
  | logInfo (msg : String)
deriving DecidableEq

/-- The rendering of an error by the logger's format verb.  The
pass-through message matches the repository's tests (`subprocess
encountered error code N`); the others are modelled. -/
def errGoMsg : GoErr → String
  | GoErr.errSilent => "cmd: error out silently"
  | GoErr.rcPassthrough n => "subprocess encountered error code " ++ toString n
  | GoErr.unrecognized name => "unrecognized command: " ++ name
  | GoErr.execError m => m
  | GoErr.exitError _ s => "exit status " ++ toString s
  | GoErr.goError m => m

/-- Modelled from the spec: `IsRcPassthroughError` (outside the provided
sources) recognizes exactly the pass-through exit-code errors. -/
def IsRcPassthroughError : GoErr → Bool
  | GoErr.rcPassthrough _ => true
  | _ => false

/-- `SuperCommand.run`, as a function of the error returned by
`c.action.Run(ctx)`: non-nil, non-silent errors are logged and — unless
they are pass-through — replaced by the silent sentinel; otherwise the
completion is logged at info level.  Returns the propagated error and
the emitted log lines. -/
def SuperCommandRun (actionErr : Option GoErr) : Option GoErr × List LogMsg :=
  match actionErr with
  | some e =>
    if e = GoErr.errSilent then (some e, [LogMsg.logInfo "command finished"])
    else
      if IsRcPassthroughError e then (some e, [LogMsg.logError (errGoMsg e)])
      else (some GoErr.errSilent, [LogMsg.logError (errGoMsg e)])
  | none => (none, [LogMsg.logInfo "command finished"])

/-- `PluginCommand.Run`, as a function of the error produced by running
the external process (`command.Run()`): an `*exec.ExitError` whose
status says the process exited becomes a pass-through error carrying the
exit status; everything else is returned as-is. -/
def PluginCommandRun (cmdRunResult : Option GoErr) : Option GoErr :=
  match cmdRunResult with
  | some (GoErr.exitError true status) => some (GoErr.rcPassthrough status)
  | other => other

/-- `Plugins.RunPlugin`, as a function of the outcome of parsing the
extracted common flags (external collaborator) and of the spawned
process: after a successful parse, `plugin.Init` stores the args and
returns nil, then `plugin.Run` executes; an `*exec.Error` result (the
executable could not be located or spawned) is replaced by the
unrecognized-command condition naming the subcommand. -/
def PluginsRunPlugin (parseErr : Option GoErr) (cmdRunResult : Option GoErr)
    (subcommand : String) : Option GoErr :=
  match parseErr with
  | some e => some e
  | none =>
    match PluginCommandRun cmdRunResult with
    | some (GoErr.execError _) => some (GoErr.unrecognized subcommand)
    | e => e

/-- The per-probe result record fanned in over the channel. -/
structure pluginDescription where
  name : String
  description : String
deriving DecidableEq

/-- Outcome of probing one plugin with `--description`: combined output
on success, or a failure (nonzero exit or spawn error). -/
inductive ProbeResult : Type where
  | ok (output : String)
  | err (msg : String)
deriving DecidableEq

/-- `result.name[len(p.Prefix):]`: strip the configured prefix.  (Go
slices bytes; `String.drop` counts characters — identical for the ASCII
prefixes the plugin convention uses.) -/
def stripName (pfx name : String) : String := name.drop pfx.length

/-- The goroutine body of `Plugins.Descriptions` for one plugin: keep
the probe output up to the first line break on success, or the
fixed-format failure string naming the plugin and flag. -/
def describeOne (probe : String → ProbeResult) (plugin : String) : pluginDescription :=
  match probe plugin with
  | ProbeResult.ok output =>
    { name := plugin, description := (output.splitOn (String.singleton (Char.ofNat 10))).headD "" }
  | ProbeResult.err _ =>
    { name := plugin,
      description := "error occurred running '" ++ plugin ++ " --description'" }

/-- The fan-in loop of `Plugins.Descriptions`: insert each arriving
result into the map under its prefix-stripped name, later arrivals
overwriting earlier ones.  Rendered recursively: the value at a key is
the most recent arrival for that key. -/
def gatherDescriptions (pfx : String) : List pluginDescription → (String → Option String)
  | [] => fun _ => none
  | r :: rest => fun k =>
    match gatherDescriptions pfx rest k with
    | some d => some d
    | none => if k = stripName pfx r.name then some r.description else none

/-- `Plugins.Descriptions`, as a function of the discovered plugin names
in the order their concurrent probes complete (`arrivals`) and of the
probe outcomes: the name-to-description map gathered from the channel. -/
def PluginsDescriptions (pfx : String) (probe : String → ProbeResult)
    (arrivals : List String) : String → Option String :=
  gatherDescriptions pfx (arrivals.map (describeOne probe))

/-- One registration call against a registry. -/
inductive RegOp : Type where
  | add (a : CAction)
  | addAlias (name al : String)
  | addWithAliases (a : CAction)

/-- Apply one registration call, yielding the post-call registry (the
pre-call one when the call fails without side effects, the rolled-back
one when `AddWithAliases` fails) and the returned error. -/
def applyOp (reg : Registry) : RegOp → Registry × Option String
  | RegOp.add a => reg.Add a
  | RegOp.addAlias n al => reg.AddAlias n al
  | RegOp.addWithAliases a => reg.AddWithAliases a

/-- The names a successful registration call appends, in order. -/
def registeredNames : RegOp → List String
  | RegOp.add a => [a.Name]
  | RegOp.addAlias _ al => [al]
  | RegOp.addWithAliases a => a.Name :: a.Aliases

/-- Run a sequence of registration calls, reporting whether every call
succeeded. -/
def runOps : Registry → List RegOp → Registry × Bool
  | reg, [] => (reg, true)
  | reg, op :: rest =>
    match applyOp reg op with
    | (reg1, none) => runOps reg1 rest
    | (reg1, some _) => ((runOps reg1 rest).1, false)

/-- A registration call all of whose alias names are non-empty.
(`Add` ignores the action's alias list, so it needs no restriction.) -/
def opAliasesNonempty : RegOp → Prop
  | RegOp.add _ => True
  | RegOp.addAlias _ al => al ≠ ""
  | RegOp.addWithAliases a => ∀ al ∈ a.Aliases, al ≠ ""

/-- Well-formedness of a registry: the representation and structural
invariants every registry reachable through the public registration API
with non-empty alias names satisfies.  Canonical entries are keyed by
their non-empty names; alias targets have canonical entries; alias keys
never shadow canonical keys (so alias chains never exceed one
indirection); both key sets are duplicate-free; and the order list holds
exactly the keys of the two maps, each once. -/
def RegistryT.WF (reg : Registry) : Prop :=
  (∀ p ∈ reg.actions, (p.2.Name = p.1 ∧ p.1 ≠ "")) ∧
  (∀ p ∈ reg.aliases, p.2 ∈ keysOf reg.actions) ∧
  (∀ p ∈ reg.aliases, p.1 ∉ keysOf reg.actions) ∧
  (keysOf reg.actions).Nodup ∧
  (keysOf reg.aliases).Nodup ∧
  reg.order.Nodup ∧
  (∀ n ∈ reg.order, n ∈ keysOf reg.actions ∨ n ∈ keysOf reg.aliases) ∧
  (∀ n ∈ keysOf reg.actions, n ∈ reg.order) ∧
  (∀ n ∈ keysOf reg.aliases, n ∈ reg.order)

instance registryWFDecidable (reg : Registry) : Decidable reg.WF := by
  unfold RegistryT.WF
  infer_instance

/-! ### Association-list and order-list lemmas -/

lemma keysOf_append {α : Type} (m₁ m₂ : List (String × α)) :
    keysOf (m₁ ++ m₂) = keysOf m₁ ++ keysOf m₂ := by
  simp [keysOf]

lemma keysOf_cons {α : Type} (p : String × α) (m : List (String × α)) :
    keysOf (p :: m) = p.1 :: keysOf m := rfl

lemma mapLookup_eq_none_iff {α : Type} (m : List (String × α)) (k : String) :
    mapLookup m k = none ↔ k ∉ keysOf m := by
  induction m with
  | nil => simp [mapLookup, keysOf]
  | cons p rest ih =>
    obtain ⟨k', v⟩ := p
    by_cases hk : k' = k
    · subst hk
      simp [mapLookup, keysOf]
    · simp [mapLookup, hk, keysOf_cons, ih, keysOf]
      tauto

lemma mapLookup_isSome_iff {α : Type} (m : List (String × α)) (k : String) :
    (mapLookup m k).isSome = true ↔ k ∈ keysOf m := by
  rw [Option.isSome_iff_ne_none]
  rw [ne_eq, mapLookup_eq_none_iff]
  tauto

lemma mapLookup_mem {α : Type} {m : List (String × α)} {k : String} {v : α}
    (h : mapLookup m k = some v) : (k, v) ∈ m := by
  induction m with
  | nil => simp [mapLookup] at h
  | cons p rest ih =>
    obtain ⟨k', w⟩ := p
    by_cases hk : k' = k
    · subst hk
      simp [mapLookup] at h
      simp [h]
    · simp [mapLookup, hk] at h
      simp [ih h]

lemma mapLookup_append_right {α : Type} {m₁ : List (String × α)} {k : String}
    (m₂ : List (String × α)) (h : k ∉ keysOf m₁) :
    mapLookup (m₁ ++ m₂) k = mapLookup m₂ k := by
  induction m₁ with
  | nil => simp
  | cons p rest ih =>
    obtain ⟨k', v⟩ := p
    simp [keysOf_cons] at h
    simp [mapLookup, Ne.symm h.1, ih h.2]

lemma mapInsert_notMem {α : Type} {m : List (String × α)} {k : String} (v : α)
    (h : k ∉ keysOf m) : mapInsert m k v = m ++ [(k, v)] := by
  induction m with
  | nil => simp [mapInsert]
  | cons p rest ih =>
    obtain ⟨k', w⟩ := p
    simp [keysOf_cons] at h
    simp [mapInsert, Ne.symm h.1, ih h.2]

lemma mapDelete_notMem {α : Type} {m : List (String × α)} {k : String}
    (h : k ∉ keysOf m) : mapDelete m k = m := by
  induction m with
  | nil => simp [mapDelete]
  | cons p rest ih =>
    obtain ⟨k', w⟩ := p
    simp [keysOf_cons] at h
    simp [mapDelete, Ne.symm h.1, ih h.2]

lemma mapDelete_append {α : Type} (m₁ m₂ : List (String × α)) (k : String) :
    mapDelete (m₁ ++ m₂) k = mapDelete m₁ k ++ mapDelete m₂ k := by
  induction m₁ with
  | nil => simp [mapDelete]
  | cons p rest ih =>
    obtain ⟨k', v⟩ := p
    by_cases hk : k' = k <;> simp [mapDelete, hk, ih]

lemma removeString_notMem {l : List String} {k : String} (h : k ∉ l) :
    removeString l k = (l, false) := by
  induction l with
  | nil => simp [removeString]
  | cons x rest ih =>
    simp at h
    simp [removeString, Ne.symm h.1, ih h.2]

lemma removeString_append_first {l₁ : List String} (l₂ : List String) {k : String}
    (h : k ∉ l₁) : (removeString (l₁ ++ k :: l₂) k).1 = l₁ ++ l₂ := by
  induction l₁ with
  | nil => simp [removeString]
  | cons x rest ih =>
    simp at h
    simp [removeString, Ne.symm h.1, ih h.2]

/-! ### Characterizing single-name lookups on keyed registries -/

lemma lookUp_name_eq (reg : Registry) (n : String)
    (h1 : ∀ p ∈ reg.actions, (p.2.Name = p.1 ∧ p.1 ≠ ""))
    (hf : (reg.lookUp n).2 = true) : (reg.lookUp n).1.Name = n := by
  unfold RegistryT.lookUp at hf ⊢
  cases ha : mapLookup reg.actions n with
  | some a =>
    simp [ha]
    exact (h1 _ (mapLookup_mem ha)).1
  | none =>
    cases hb : mapLookup reg.aliases n with
    | some t =>
      cases hc : mapLookup reg.actions t with
      | some a => simp [ha, hb, hc, ActionT.NewAlias]
      | none => simp [ha, hb, hc] at hf
    | none => simp [ha, hb] at hf

lemma mem_keysOf_of_lookup {α : Type} {m : List (String × α)} {k : String} {v : α}
    (h : mapLookup m k = some v) : k ∈ keysOf m :=
  (mapLookup_isSome_iff m k).1 (by simp [h])

lemma lookUp_found_iff (reg : Registry) (n : String)
    (h2 : ∀ p ∈ reg.aliases, p.2 ∈ keysOf reg.actions) :
    (reg.lookUp n).2 = true ↔ (n ∈ keysOf reg.actions ∨ n ∈ keysOf reg.aliases) := by
  unfold RegistryT.lookUp
  cases ha : mapLookup reg.actions n with
  | some a =>
    simp [ha]
    exact Or.inl (mem_keysOf_of_lookup ha)
  | none =>
    have han : n ∉ keysOf reg.actions := (mapLookup_eq_none_iff _ _).1 ha
    cases hb : mapLookup reg.aliases n with
    | some t =>
      have hmem : (n, t) ∈ reg.aliases := mapLookup_mem hb
      have ht : t ∈ keysOf reg.actions := h2 _ hmem
      have hts : (mapLookup reg.actions t).isSome = true := (mapLookup_isSome_iff _ _).2 ht
      cases hc : mapLookup reg.actions t with
      | some a =>
        simp [hc]
        exact Or.inr (mem_keysOf_of_lookup hb)
      | none => rw [hc] at hts; simp at hts
    | none =>
      have hbn : n ∉ keysOf reg.aliases := (mapLookup_eq_none_iff _ _).1 hb
      simp [han, hbn]

lemma lookUpLoop_single (reg : Registry) (n : String) :
    reg.lookUpLoop [n] emptyAction =
      (if (reg.lookUp n).2 = true then (reg.lookUp n).1 else emptyAction) := by
  unfold RegistryT.lookUpLoop
  rcases h : reg.lookUp n with ⟨a, b⟩
  cases b with
  | false => simp
  | true =>
    simp [RegistryT.lookUpLoop]
    cases hc : a.Command with
    | none => rfl
    | some c => cases c <;> rfl

lemma LookUp_single_eq (reg : Registry) (n : String) :
    reg.LookUp [n] =
      (if (reg.lookUp n).2 = true ∧ (reg.lookUp n).1.Name ≠ "" then ((reg.lookUp n).1, true)
       else if (reg.lookUp n).2 = true then ((reg.lookUp n).1, false)
       else (emptyAction, false)) := by
  unfold RegistryT.LookUp
  rw [lookUpLoop_single]
  by_cases hb : (reg.lookUp n).2 = true
  · by_cases hn : (reg.lookUp n).1.Name = ""
    · simp [hb, hn]
    · simp [hb, hn]
  · simp [hb, emptyAction]

lemma LookUp_single_found_iff (reg : Registry) (n : String) (hn : n ≠ "")
    (h1 : ∀ p ∈ reg.actions, (p.2.Name = p.1 ∧ p.1 ≠ ""))
    (h2 : ∀ p ∈ reg.aliases, p.2 ∈ keysOf reg.actions) :
    (reg.LookUp [n]).2 = true ↔ (n ∈ keysOf reg.actions ∨ n ∈ keysOf reg.aliases) := by
  rw [LookUp_single_eq]
  by_cases hb : (reg.lookUp n).2 = true
  · have hname : (reg.lookUp n).1.Name = n := lookUp_name_eq reg n h1 hb
    simp [hb, hname, hn]
    exact (lookUp_found_iff reg n h2).1 hb
  · simp [hb]
    constructor
    · intro hk
      exact hb ((lookUp_found_iff reg n h2).2 (Or.inl hk))
    · intro hk
      exact hb ((lookUp_found_iff reg n h2).2 (Or.inr hk))

/-! ### Shape lemmas for the registration operations -/

lemma keysOf_mem {α : Type} {m : List (String × α)} {p : String × α}
    (hp : p ∈ m) : p.1 ∈ keysOf m :=
  List.mem_map_of_mem Prod.fst hp

lemma mem_keysOf_iff {α : Type} {m : List (String × α)} {k : String} :
    k ∈ keysOf m ↔ ∃ v, (k, v) ∈ m := by
  constructor
  · intro h
    rw [← mapLookup_isSome_iff] at h
    cases hl : mapLookup m k with
    | none => rw [hl] at h; simp at h
    | some v => exact ⟨v, mapLookup_mem hl⟩
  · rintro ⟨v, hv⟩
    exact keysOf_mem hv

lemma keysOf_map_pair (l : List String) (n : String) :
    keysOf (l.map (fun al => (al, n))) = l := by
  simp [keysOf, List.map_map]
  exact List.map_id l

lemma nodup_append_singleton {l : List String} {x : String}
    (h : l.Nodup) (hx : x ∉ l) : (l ++ [x]).Nodup := by
  simp [List.nodup_append, h, hx]

lemma Validate_none {a : CAction} (h : a.Validate = none) :
    a.Name ≠ "" ∧ a.Command.isSome = true := by
  unfold ActionT.Validate at h
  by_cases h1 : a.Name = ""
  · simp [h1] at h
  · by_cases h2 : a.Command.isNone = true
    · simp [h1, h2] at h
    · refine ⟨h1, ?_⟩
      cases hc : a.Command with
      | none => rw [hc] at h2; simp at h2
      | some c => simp

lemma Add_success {reg : Registry} {a : CAction} (h : (reg.Add a).2 = none) :
    a.Validate = none ∧ (reg.LookUp [a.Name]).2 = false ∧
      (reg.Add a).1 = { reg with actions := mapInsert reg.actions a.Name a,
                                 order := reg.order ++ [a.Name] } := by
  revert h
  unfold RegistryT.Add
  cases hv : a.Validate with
  | some e => intro h; simp at h
  | none =>
    by_cases hl : (reg.LookUp [a.Name]).2 = true
    · simp [hl]
    · simp at hl
      simp [hl]

lemma Add_fail {reg : Registry} {a : CAction} (h : (reg.Add a).2 ≠ none) :
    (reg.Add a).1 = reg := by
  revert h
  unfold RegistryT.Add
  cases hv : a.Validate with
  | some e => intro h; simp
  | none =>
    by_cases hl : (reg.LookUp [a.Name]).2 = true
    · simp [hl]
    · simp [hl]

lemma AddAlias_success {reg : Registry} {name al : String}
    (h : (reg.AddAlias name al).2 = none) :
    name ∈ keysOf reg.actions ∧ (reg.LookUp [al]).2 = false ∧
      (reg.AddAlias name al).1 = { reg with aliases := mapInsert reg.aliases al name,
                                            order := reg.order ++ [al] } := by
  revert h
  unfold RegistryT.AddAlias
  cases hn : mapLookup reg.actions name with
  | none => intro h; simp at h
  | some act =>
    by_cases hl : (reg.LookUp [al]).2 = true
    · simp [hl]
    · simp at hl
      intro h
      exact ⟨mem_keysOf_of_lookup hn, hl, by simp [hl]⟩

lemma AddAlias_fail {reg : Registry} {name al : String}
    (h : (reg.AddAlias name al).2 ≠ none) :
    (reg.AddAlias name al).1 = reg := by
  revert h
  unfold RegistryT.AddAlias
  cases hn : mapLookup reg.actions name with
  | none => intro h; simp
  | some act =>
    by_cases hl : (reg.LookUp [al]).2 = true
    · simp [hl]
    · simp [hl]

lemma fresh_of_notFound {reg : Registry} {n : String} (hn : n ≠ "")
    (h1 : ∀ p ∈ reg.actions, (p.2.Name = p.1 ∧ p.1 ≠ ""))
    (h2 : ∀ p ∈ reg.aliases, p.2 ∈ keysOf reg.actions)
    (h7 : ∀ m ∈ reg.order, m ∈ keysOf reg.actions ∨ m ∈ keysOf reg.aliases)
    (h : (reg.LookUp [n]).2 = false) :
    n ∉ keysOf reg.actions ∧ n ∉ keysOf reg.aliases ∧ n ∉ reg.order := by
  have hiff := LookUp_single_found_iff reg n hn h1 h2
  rw [h] at hiff
  have hnot : ¬(n ∈ keysOf reg.actions ∨ n ∈ keysOf reg.aliases) := by
    intro hk
    exact absurd (hiff.2 hk) (by simp)
  refine ⟨fun hk => hnot (Or.inl hk), fun hk => hnot (Or.inr hk), fun ho => hnot (h7 n ho)⟩

/-! ### The registration operations preserve well-formedness -/

lemma WF_Add {reg : Registry} (a : CAction) (hWF : reg.WF) : ((reg.Add a).1).WF := by
  by_cases he : (reg.Add a).2 = none
  · obtain ⟨hv, hl, hshape⟩ := Add_success he
    obtain ⟨hW1, hW2, hW3, hW4, hW5, hW6, hW7, hW8, hW9⟩ := hWF
    obtain ⟨hname, -⟩ := Validate_none hv
    obtain ⟨hf1, hf2, hf3⟩ := fresh_of_notFound hname hW1 hW2 hW7 hl
    rw [hshape]
    rw [mapInsert_notMem a hf1]
    refine ⟨?_, ?_, ?_, ?_, ?_, ?_, ?_, ?_, ?_⟩
    · intro p hp
      rcases List.mem_append.1 hp with hp | hp
      · exact hW1 p hp
      · simp at hp
        subst hp
        exact ⟨rfl, hname⟩
    · intro p hp
      rw [keysOf_append]
      exact List.mem_append_left _ (hW2 p hp)
    · intro p hp
      rw [keysOf_append]
      intro hmem
      rcases List.mem_append.1 hmem with hmem | hmem
      · exact hW3 p hp hmem
      · simp [keysOf] at hmem
        exact hf2 (hmem ▸ keysOf_mem hp)
    · rw [keysOf_append]
      exact nodup_append_singleton hW4 hf1
    · exact hW5
    · exact nodup_append_singleton hW6 hf3
    · intro m hm
      rcases List.mem_append.1 hm with hm | hm
      · rcases hW7 m hm with hk | hk
        · exact Or.inl (by rw [keysOf_append]; exact List.mem_append_left _ hk)
        · exact Or.inr hk
      · simp at hm
        subst hm
        exact Or.inl (by rw [keysOf_append]; simp [keysOf])
    · intro m hm
      rw [keysOf_append] at hm
      rcases List.mem_append.1 hm with hm | hm
      · exact List.mem_append_left _ (hW8 m hm)
      · simp [keysOf] at hm
        subst hm
        simp
    · intro m hm
      exact List.mem_append_left _ (hW9 m hm)
  · rw [Add_fail he]
    exact hWF

lemma WF_AddAlias {reg : Registry} {name al : String} (hal : al ≠ "")
    (hWF : reg.WF) : ((reg.AddAlias name al).1).WF := by
  by_cases he : (reg.AddAlias name al).2 = none
  · obtain ⟨hname, hl, hshape⟩ := AddAlias_success he
    obtain ⟨hW1, hW2, hW3, hW4, hW5, hW6, hW7, hW8, hW9⟩ := hWF
    obtain ⟨hf1, hf2, hf3⟩ := fresh_of_notFound hal hW1 hW2 hW7 hl
    rw [hshape]
    rw [mapInsert_notMem name hf2]
    refine ⟨?_, ?_, ?_, ?_, ?_, ?_, ?_, ?_, ?_⟩
    · exact hW1
    · intro p hp
      rcases List.mem_append.1 hp with hp | hp
      · exact hW2 p hp
      · simp at hp
        subst hp
        exact hname
    · intro p hp
      rcases List.mem_append.1 hp with hp | hp
      · exact hW3 p hp
      · simp at hp
        subst hp
        exact hf1
    · exact hW4
    · rw [keysOf_append]
      exact nodup_append_singleton hW5 hf2
    · exact nodup_append_singleton hW6 hf3
    · intro m hm
      rcases List.mem_append.1 hm with hm | hm
      · rcases hW7 m hm with hk | hk
        · exact Or.inl hk
        · exact Or.inr (by rw [keysOf_append]; exact List.mem_append_left _ hk)
      · simp at hm
        subst hm
        exact Or.inr (by rw [keysOf_append]; simp [keysOf])
    · intro m hm
      exact List.mem_append_left _ (hW8 m hm)
    · intro m hm
      rw [keysOf_append] at hm
      rcases List.mem_append.1 hm with hm | hm
      · exact List.mem_append_left _ (hW9 m hm)
      · simp [keysOf] at hm
        subst hm
        simp
  · rw [AddAlias_fail he]
    exact hWF

/-! ### Rollback of a failed multi-name registration restores the state -/

lemma remove_action_of (o : List String) (ac : List (String × CAction))
    (alx : List (String × String)) (d nm : String) (a : CAction)
    (hla : mapLookup ac nm = some a) :
    RegistryT.remove ⟨o, ac, alx, d⟩ nm = ⟨(removeString o nm).1, mapDelete ac nm, alx, d⟩ := by
  simp only [RegistryT.remove, hla]

lemma remove_alias_of (o : List String) (ac : List (String × CAction))
    (alx : List (String × String)) (d nm t : String)
    (hla : mapLookup ac nm = none) (hlb : mapLookup alx nm = some t) :
    RegistryT.remove ⟨o, ac, alx, d⟩ nm = ⟨(removeString o nm).1, ac, mapDelete alx nm, d⟩ := by
  simp only [RegistryT.remove, hla, hlb]

lemma fold_remove_restore (reg0 : Registry) (n : String) :
    ∀ added : List String,
    (∀ al ∈ added, al ∉ keysOf reg0.actions ∧ al ∉ keysOf reg0.aliases ∧ al ∉ reg0.order) →
    added.Nodup →
    added.foldl (fun r x => r.remove x)
      ⟨reg0.order ++ added, reg0.actions,
       reg0.aliases ++ added.map (fun al => (al, n)), reg0.defaultName⟩ = reg0 := by
  intro added
  induction added with
  | nil =>
    intro _ _
    simp
  | cons a1 rest ih =>
    intro hfresh hnodup
    have hfa := hfresh a1 (by simp)
    have hfrest : ∀ al ∈ rest, al ∉ keysOf reg0.actions ∧ al ∉ keysOf reg0.aliases ∧ al ∉ reg0.order :=
      fun al hal => hfresh al (by simp [hal])
    have hnodup' := List.nodup_cons.1 hnodup
    have hkrest : a1 ∉ keysOf (rest.map (fun al => (al, n))) := by
      rw [keysOf_map_pair]
      exact hnodup'.1
    have hla : mapLookup reg0.actions a1 = none := (mapLookup_eq_none_iff _ _).2 hfa.1
    have hlb : mapLookup (reg0.aliases ++ (a1, n) :: rest.map (fun al => (al, n))) a1 = some n := by
      rw [mapLookup_append_right _ hfa.2.1]
      simp [mapLookup]
    have hB : mapDelete (reg0.aliases ++ (a1, n) :: rest.map (fun al => (al, n))) a1 =
        reg0.aliases ++ rest.map (fun al => (al, n)) := by
      rw [mapDelete_append, mapDelete_notMem hfa.2.1]
      simp [mapDelete, mapDelete_notMem hkrest]
    have hX : (removeString (reg0.order ++ a1 :: rest) a1).1 = reg0.order ++ rest :=
      removeString_append_first rest hfa.2.2
    rw [List.foldl_cons]
    simp only [List.map_cons]
    rw [remove_alias_of _ _ _ _ _ _ hla hlb]
    rw [hB, hX]
    exact ih hfrest hnodup'.2

lemma rollback_restore (reg0 : Registry) (n : String) (a : CAction)
    (hn1 : n ∉ keysOf reg0.actions) (hno : n ∉ reg0.order)
    (added : List String)
    (hfresh : ∀ al ∈ added,
      al ∉ keysOf reg0.actions ∧ al ∉ keysOf reg0.aliases ∧ al ∉ reg0.order ∧ al ≠ n)
    (hnodup : added.Nodup) :
    added.foldl (fun r x => r.remove x)
      (RegistryT.remove
        ⟨reg0.order ++ n :: added, reg0.actions ++ [(n, a)],
         reg0.aliases ++ added.map (fun al => (al, n)), reg0.defaultName⟩ n) = reg0 := by
  have hla : mapLookup (reg0.actions ++ [(n, a)]) n = some a := by
    rw [mapLookup_append_right _ hn1]
    simp [mapLookup]
  rw [remove_action_of _ _ _ _ _ _ hla]
  have hact : mapDelete (reg0.actions ++ [(n, a)]) n = reg0.actions := by
    rw [mapDelete_append, mapDelete_notMem hn1]
    simp [mapDelete]
  have hord : (removeString (reg0.order ++ n :: added) n).1 = reg0.order ++ added :=
    removeString_append_first added hno
  rw [hact, hord]
  exact fold_remove_restore reg0 n added
    (fun al hal => ⟨(hfresh al hal).1, (hfresh al hal).2.1, (hfresh al hal).2.2.1⟩) hnodup

lemma keysOf_singleton {α : Type} (k : String) (v : α) : keysOf [(k, v)] = [k] := rfl

lemma addAliasesLoop_spec (n : String) (a : CAction) :
    ∀ (aliases added : List String) (reg0 : Registry),
    reg0.WF →
    (RegistryT.WF ⟨reg0.order ++ n :: added, reg0.actions ++ [(n, a)],
                   reg0.aliases ++ added.map (fun al => (al, n)), reg0.defaultName⟩) →
    n ≠ "" → n ∉ keysOf reg0.actions → n ∉ keysOf reg0.aliases → n ∉ reg0.order →
    (∀ al ∈ added,
      al ≠ "" ∧ al ∉ keysOf reg0.actions ∧ al ∉ keysOf reg0.aliases ∧ al ∉ reg0.order ∧ al ≠ n) →
    added.Nodup →
    (∀ al ∈ aliases, al ≠ "") →
    ((RegistryT.addAliasesLoop
        ⟨reg0.order ++ n :: added, reg0.actions ++ [(n, a)],
         reg0.aliases ++ added.map (fun al => (al, n)), reg0.defaultName⟩
        n aliases added).2.isSome = true →
      (RegistryT.addAliasesLoop
        ⟨reg0.order ++ n :: added, reg0.actions ++ [(n, a)],
         reg0.aliases ++ added.map (fun al => (al, n)), reg0.defaultName⟩
        n aliases added).1 = reg0) ∧
    ((RegistryT.addAliasesLoop
        ⟨reg0.order ++ n :: added, reg0.actions ++ [(n, a)],
         reg0.aliases ++ added.map (fun al => (al, n)), reg0.defaultName⟩
        n aliases added).1).WF := by
  intro aliases
  induction aliases with
  | nil =>
    intro added reg0 hWF0 hWFc hn hn1 hn2 hno hadded hnodup hals
    unfold RegistryT.addAliasesLoop
    exact ⟨by simp, hWFc⟩
  | cons al rest ih =>
    intro added reg0 hWF0 hWFc hn hn1 hn2 hno hadded hnodup hals
    have hal : al ≠ "" := hals al (by simp)
    have hrest : ∀ x ∈ rest, x ≠ "" := fun x hx => hals x (by simp [hx])
    set cur : Registry := ⟨reg0.order ++ n :: added, reg0.actions ++ [(n, a)],
      reg0.aliases ++ added.map (fun al => (al, n)), reg0.defaultName⟩ with hcur
    rcases hAA : cur.AddAlias n al with ⟨reg1, e⟩
    have h1 : (cur.AddAlias n al).1 = reg1 := by rw [hAA]
    have h2 : (cur.AddAlias n al).2 = e := by rw [hAA]
    cases e with
    | some err =>
      have hc : reg1 = cur := by
        rw [← h1]
        exact AddAlias_fail (by rw [h2]; simp)
      have hroll : added.foldl (fun r x => r.remove x) (cur.remove n) = reg0 :=
        rollback_restore reg0 n a hn1 hno added (fun x hx => (hadded x hx).2) hnodup
      constructor
      · intro _
        simp only [RegistryT.addAliasesLoop, hAA]
        rw [hc]
        exact hroll
      · simp only [RegistryT.addAliasesLoop, hAA]
        rw [hc, hroll]
        exact hWF0
    | none =>
      obtain ⟨hnm, hlkp, hshape⟩ := AddAlias_success h2
      have hWFc7 := hWFc.2.2.2.2.2.2.1
      have hfl := fresh_of_notFound hal hWFc.1 hWFc.2.1 hWFc7 hlkp
      have hA' : al ∉ keysOf (reg0.actions ++ [(n, a)]) := hfl.1
      rw [keysOf_append, keysOf_singleton] at hA'
      simp at hA'
      have hB' : al ∉ keysOf (reg0.aliases ++ added.map (fun x => (x, n))) := hfl.2.1
      rw [keysOf_append, keysOf_map_pair] at hB'
      simp at hB'
      have hO' : al ∉ reg0.order ++ n :: added := hfl.2.2
      simp at hO'
      have hWF1 : ((cur.AddAlias n al).1).WF := WF_AddAlias hal hWFc
      have hshape' : reg1 =
          ⟨reg0.order ++ n :: (added ++ [al]), reg0.actions ++ [(n, a)],
           reg0.aliases ++ (added ++ [al]).map (fun x => (x, n)), reg0.defaultName⟩ := by
        rw [← h1, hshape]
        rw [mapInsert_notMem n hfl.2.1]
        show RegistryT.mk _ _ _ _ = RegistryT.mk _ _ _ _
        congr 1
        · simp
        · simp
      rw [h1, hshape'] at hWF1
      have hadded' : ∀ x ∈ added ++ [al],
          x ≠ "" ∧ x ∉ keysOf reg0.actions ∧ x ∉ keysOf reg0.aliases ∧ x ∉ reg0.order ∧ x ≠ n := by
        intro x hx
        rcases List.mem_append.1 hx with hx | hx
        · exact hadded x hx
        · simp at hx
          subst hx
          exact ⟨hal, hA'.1, hB'.1, hO'.1, hA'.2⟩
      have hnodup' : (added ++ [al]).Nodup := nodup_append_singleton hnodup hB'.2
      simp only [RegistryT.addAliasesLoop, hAA]
      rw [hshape']
      exact ih (added ++ [al]) reg0 hWF0 hWF1 hn hn1 hn2 hno hadded' hnodup' hrest

lemma AddWithAliases_spec {reg : Registry} {a : CAction} (hWF : reg.WF)
    (hAl : ∀ al ∈ a.Aliases, al ≠ "") :
    ((reg.AddWithAliases a).2.isSome = true → (reg.AddWithAliases a).1 = reg) ∧
    ((reg.AddWithAliases a).1).WF := by
  rcases hA : reg.Add a with ⟨reg1, e⟩
  have h1 : (reg.Add a).1 = reg1 := by rw [hA]
  have h2 : (reg.Add a).2 = e := by rw [hA]
  cases e with
  | some err =>
    have hc : reg1 = reg := by
      rw [← h1]
      exact Add_fail (by rw [h2]; simp)
    constructor
    · intro _
      simp only [RegistryT.AddWithAliases, hA]
      exact hc
    · simp only [RegistryT.AddWithAliases, hA]
      rw [hc]
      exact hWF
  | none =>
    obtain ⟨hv, hl, hshape⟩ := Add_success h2
    obtain ⟨hname, -⟩ := Validate_none hv
    have hWF1 : ((reg.Add a).1).WF := WF_Add a hWF
    obtain ⟨hf1, hf2, hf3⟩ := fresh_of_notFound hname hWF.1 hWF.2.1 hWF.2.2.2.2.2.2.1 hl
    have hshape' : reg1 =
        ⟨reg.order ++ a.Name :: ([] : List String), reg.actions ++ [(a.Name, a)],
         reg.aliases ++ ([] : List String).map (fun al => (al, a.Name)), reg.defaultName⟩ := by
      rw [← h1, hshape]
      rw [mapInsert_notMem a hf1]
      show RegistryT.mk _ _ _ _ = RegistryT.mk _ _ _ _
      congr 1
      all_goals simp
    rw [h1, hshape'] at hWF1
    have hloop := addAliasesLoop_spec a.Name a a.Aliases [] reg hWF hWF1 hname hf1 hf2 hf3
      (by simp) (by simp) hAl
    constructor
    · intro hs
      simp only [RegistryT.AddWithAliases, hA] at hs ⊢
      rw [hshape'] at hs ⊢
      exact hloop.1 hs
    · simp only [RegistryT.AddWithAliases, hA]
      rw [hshape']
      exact hloop.2

lemma WF_AddWithAliases {reg : Registry} {a : CAction} (hWF : reg.WF)
    (hAl : ∀ al ∈ a.Aliases, al ≠ "") : ((reg.AddWithAliases a).1).WF :=
  (AddWithAliases_spec hWF hAl).2

lemma WF_applyOp {reg : Registry} {op : RegOp} (hWF : reg.WF)
    (hop : opAliasesNonempty op) : ((applyOp reg op).1).WF := by
  cases op with
  | add a => exact WF_Add a hWF
  | addAlias nm al => exact WF_AddAlias hop hWF
  | addWithAliases a => exact WF_AddWithAliases hWF hop

lemma WF_runOps : ∀ (ops : List RegOp) (reg : Registry), reg.WF →
    (∀ op ∈ ops, opAliasesNonempty op) → ((runOps reg ops).1).WF := by
  intro ops
  induction ops with
  | nil =>
    intro reg hWF _
    exact hWF
  | cons op rest ih =>
    intro reg hWF hops
    have hop := hops op (by simp)
    have hrest : ∀ o ∈ rest, opAliasesNonempty o := fun o ho => hops o (by simp [ho])
    have hWF1 : ((applyOp reg op).1).WF := WF_applyOp hWF hop
    rcases hap : applyOp reg op with ⟨reg1, e⟩
    rw [hap] at hWF1
    cases e with
    | none => simpa [runOps, hap] using ih reg1 hWF1 hrest
    | some err => simpa [runOps, hap] using ih reg1 hWF1 hrest

/-! ### Successful registrations append exactly their names to the order -/

lemma Add_success_order {reg : Registry} {a : CAction} (h : (reg.Add a).2 = none) :
    ((reg.Add a).1).order = reg.order ++ [a.Name] := by
  obtain ⟨-, -, hshape⟩ := Add_success h
  rw [hshape]

lemma AddAlias_success_order {reg : Registry} {nm al : String}
    (h : (reg.AddAlias nm al).2 = none) :
    ((reg.AddAlias nm al).1).order = reg.order ++ [al] := by
  obtain ⟨-, -, hshape⟩ := AddAlias_success h
  rw [hshape]

lemma addAliasesLoop_success_order (n : String) :
    ∀ (aliases added : List String) (reg : Registry),
    (reg.addAliasesLoop n aliases added).2 = none →
    ((reg.addAliasesLoop n aliases added).1).order = reg.order ++ aliases := by
  intro aliases
  induction aliases with
  | nil =>
    intro added reg h
    unfold RegistryT.addAliasesLoop
    simp
  | cons al rest ih =>
    intro added reg h
    rcases hAA : reg.AddAlias n al with ⟨reg1, e⟩
    have h1 : (reg.AddAlias n al).1 = reg1 := by rw [hAA]
    have h2 : (reg.AddAlias n al).2 = e := by rw [hAA]
    cases e with
    | some err =>
      simp only [RegistryT.addAliasesLoop, hAA] at h
      simp at h
    | none =>
      have ho1 : reg1.order = reg.order ++ [al] := by
        rw [← h1]
        exact AddAlias_success_order h2
      simp only [RegistryT.addAliasesLoop, hAA] at h ⊢
      rw [ih (added ++ [al]) reg1 h, ho1]
      simp

lemma AddWithAliases_success_order {reg : Registry} {a : CAction}
    (h : (reg.AddWithAliases a).2 = none) :
    ((reg.AddWithAliases a).1).order = reg.order ++ a.Name :: a.Aliases := by
  rcases hA : reg.Add a with ⟨reg1, e⟩
  have h1 : (reg.Add a).1 = reg1 := by rw [hA]
  have h2 : (reg.Add a).2 = e := by rw [hA]
  cases e with
  | some err =>
    simp only [RegistryT.AddWithAliases, hA] at h
    simp at h
  | none =>
    have ho1 : reg1.order = reg.order ++ [a.Name] := by
      rw [← h1]
      exact Add_success_order h2
    simp only [RegistryT.AddWithAliases, hA] at h ⊢
    rw [addAliasesLoop_success_order a.Name a.Aliases [] reg1 h, ho1]
    simp

lemma applyOp_success_order {reg : Registry} {op : RegOp}
    (h : (applyOp reg op).2 = none) :
    ((applyOp reg op).1).order = reg.order ++ registeredNames op := by
  cases op with
  | add a => exact Add_success_order h
  | addAlias nm al => exact AddAlias_success_order h
  | addWithAliases a => exact AddWithAliases_success_order h

lemma runOps_success_order : ∀ (ops : List RegOp) (reg : Registry),
    (runOps reg ops).2 = true →
    ((runOps reg ops).1).order = reg.order ++ (ops.map registeredNames).flatten := by
  intro ops
  induction ops with
  | nil =>
    intro reg h
    simp [runOps]
  | cons op rest ih =>
    intro reg h
    rcases hap : applyOp reg op with ⟨reg1, e⟩
    have h1 : (applyOp reg op).1 = reg1 := by rw [hap]
    have h2 : (applyOp reg op).2 = e := by rw [hap]
    cases e with
    | some err =>
      simp only [runOps, hap] at h
      simp at h
    | none =>
      have ho1 : reg1.order = reg.order ++ registeredNames op := by
        rw [← h1]
        exact applyOp_success_order h2
      simp only [runOps, hap] at h ⊢
      rw [ih reg1 h, ho1]
      simp

instance opAliasesNonemptyDecidable : ∀ op : RegOp, Decidable (opAliasesNonempty op)
  | RegOp.add _ => inferInstanceAs (Decidable True)
  | RegOp.addAlias _ al => inferInstanceAs (Decidable (al ≠ ""))
  | RegOp.addWithAliases a => inferInstanceAs (Decidable (∀ al ∈ a.Aliases, al ≠ ""))

/-! ### Claim C1 — nested path resolution -/

def c1LeafL : Cmd := Cmd.leaf (some { Name := "l", Purpose := "the leaf", Aliases := [] })

def c1ActL : CAction :=
  { Name := "l", AliasedName := "", Command := some c1LeafL, Aliases := [], Replacement := "" }

def c1SubReg : Registry :=
  { order := ["l"], actions := [("l", c1ActL)], aliases := [], defaultName := "" }

def c1SuperS : Cmd :=
  Cmd.super { Name := "s", Purpose := "", Aliases := [], showDescription := false,
              missingCallback := none, subcmds := c1SubReg }

def c1ActS : CAction :=
  { Name := "s", AliasedName := "", Command := some c1SuperS, Aliases := [], Replacement := "" }

def c1RegD : Registry :=
  { order := ["s"], actions := [("s", c1ActS)], aliases := [], defaultName := "" }

/-- C1: evaluating `Registry.LookUp` at the claim's inputs.  The first
leg of the claim holds: `LookUp ["s", "l"]` resolves to L's action with
found true.  The other two legs are contradicted by the code: with path
`["s", "x"]` (x unregistered in S) the loop keeps the last successfully
resolved action — S's own action, whose name is non-empty — so `LookUp`
returns found = true, and likewise `["l", "anything"]` where `l` wraps a
non-dispatcher returns l's action with found = true.  This contradicts
the function's own doc comment ("If any of the parent actions does not
wrap a super-command then the lookup fails. If the identified action is
not found, for whatever reason, then false is returned"), so the code,
not the claim, is wrong. -/
theorem lookUpNestedPartialPathDiverges :
    (c1RegD.LookUp ["s", "l"]).2 = true ∧ (c1RegD.LookUp ["s", "l"]).1.Name = "l" ∧
    (c1RegD.LookUp ["s", "x"]).2 = true ∧ (c1RegD.LookUp ["s", "x"]).1.Name = "s" ∧
    (c1SubReg.LookUp ["l", "anything"]).2 = true ∧
    (c1SubReg.LookUp ["l", "anything"]).1.Name = "l" :=
  ⟨by decide, by decide, by decide, by decide, by decide, by decide⟩

/-! ### Claim C2 — Init with a missing-command callback -/

def c2HelpLeaf : Cmd := Cmd.leaf (some { Name := "help", Purpose := "show help", Aliases := [] })

def c2Registry : Registry :=
  { order := ["help"],
    actions := [("help", { Name := "help", AliasedName := "", Command := some c2HelpLeaf,
                           Aliases := [], Replacement := "" })],
    aliases := [], defaultName := "help" }

def c2Super : SuperT Cmd :=
  { Name := "jj", Purpose := "", Aliases := [], showDescription := false,
    missingCallback := some 0, subcmds := c2Registry }

/-- C2: a SuperCommand with a configured missing-command callback, run
on an argument vector whose first element is not registered.  The claim
(and the spec) say `Init` returns nil, deferring the miss to run time.
The code instead calls `newActionFromCommand` on the synthesized
`missingCommand`, whose `Info()` returns nil — documented as "never
called" — and dereferences it: a nil-pointer panic. -/
theorem initMissingCallbackPanics :
    (c2Registry.LookUp ["bogus"]).2 = false ∧
    SuperCommandInit c2Super ["bogus"] = InitOutcome.panicked nilDerefMsg :=
  ⟨by decide, rfl⟩

/-! ### Claim C3 — atomicity of AddWithAliases -/

def c3ActA : CAction :=
  { Name := "a", AliasedName := "",
    Command := some (Cmd.leaf (some { Name := "a", Purpose := "", Aliases := [] })),
    Aliases := [], Replacement := "" }

def c3ActB : CAction :=
  { Name := "b", AliasedName := "",
    Command := some (Cmd.leaf (some { Name := "b", Purpose := "", Aliases := [] })),
    Aliases := [], Replacement := "" }

def c3ActC : CAction :=
  { Name := "c", AliasedName := "",
    Command := some (Cmd.leaf (some { Name := "c", Purpose := "", Aliases := ["", "b"] })),
    Aliases := ["", "b"], Replacement := "" }

/-- The pre-call registry of the C3 counterexample, reached from a fresh
registry through the public operations only: register `a`, alias it to
the empty string, register `b`. -/
def c3Pre : Registry :=
  (runOps emptyRegistry [RegOp.add c3ActA, RegOp.addAlias "a" "", RegOp.add c3ActB]).1

/-- C3 counterexample: on the reachable registry `c3Pre` (which holds
the alias binding "" to "a"), `AddWithAliases` of an action named `c`
with aliases `[""]` and `["b"]` registers `c`, silently overwrites the
pre-existing empty-name alias binding (the lookup guard reports an
empty-named alias view as not found), then hits the collision on `b` —
and its rollback deletes the empty-alias binding instead of restoring
it.  The call errors, yet the alias map afterward is empty instead of
`[("", "a")]`: the registry is distinguishable from its pre-call
state. -/
theorem addWithAliasesRollbackNotExact :
    (c3Pre.AddWithAliases c3ActC).2.isSome = true ∧
    c3Pre.aliases = [("", "a")] ∧
    ((c3Pre.AddWithAliases c3ActC).1).aliases = [] ∧
    c3Pre.order = ["a", "", "b"] ∧
    ((c3Pre.AddWithAliases c3ActC).1).order = ["a", "b", ""] :=
  ⟨by decide, by decide, by decide, by decide, by decide⟩

/-- C3 (amended): for every well-formed registry (the invariant every
registry reachable through the public API with non-empty alias names
satisfies) and every action whose alias names are non-empty, a failing
`AddWithAliases` — the canonical name registering and then any alias
colliding — leaves the registry exactly equal to its pre-call state:
order list, action map, alias map and hence all lookup results are
unchanged. -/
theorem addWithAliasesAtomic (reg : Registry) (a : CAction) (hWF : reg.WF)
    (hAl : ∀ al ∈ a.Aliases, al ≠ "")
    (herr : (reg.AddWithAliases a).2.isSome = true) :
    (reg.AddWithAliases a).1 = reg :=
  (AddWithAliases_spec hWF hAl).1 herr

def c3WfReg : Registry :=
  { order := ["a", "b"], actions := [("a", c3ActA), ("b", c3ActB)],
    aliases := [], defaultName := "" }

def c3ActD : CAction :=
  { Name := "d", AliasedName := "",
    Command := some (Cmd.leaf (some { Name := "d", Purpose := "", Aliases := ["b"] })),
    Aliases := ["b"], Replacement := "" }

theorem addWithAliasesAtomicWitness :
    c3WfReg.WF ∧ (∀ al ∈ c3ActD.Aliases, al ≠ "") ∧
    (c3WfReg.AddWithAliases c3ActD).2.isSome = true ∧
    (c3WfReg.AddWithAliases c3ActD).1 = c3WfReg :=
  ⟨by decide, by decide, by decide,
   addWithAliasesAtomic c3WfReg c3ActD (by decide) (by decide) (by decide)⟩

/-! ### Claim C7 — registry invariants under registration sequences -/

def c7ActA : CAction :=
  { Name := "a", AliasedName := "",
    Command := some (Cmd.leaf (some { Name := "a", Purpose := "", Aliases := [] })),
    Aliases := [], Replacement := "" }

def c7BadOps : List RegOp :=
  [RegOp.add c7ActA, RegOp.addAlias "a" "", RegOp.addAlias "a" ""]

/-- C7 counterexample: from a fresh registry, `Add a; AddAlias a "";
AddAlias a ""` — three calls that all succeed (the second registration
of the empty alias slips past the collision guard because an alias view
with an empty name is reported as not found) — leave the registered
alias name "" in the order list twice, violating the claimed
exactly-once invariant. -/
theorem registryInvariantsCounterexample :
    (runOps emptyRegistry c7BadOps).2 = true ∧
    "" ∈ keysOf ((runOps emptyRegistry c7BadOps).1).aliases ∧
    ((runOps emptyRegistry c7BadOps).1).order.count "" = 2 :=
  ⟨by decide, by decide, by decide⟩

/-- C7 (amended): after every sequence of `Add`, `AddAlias` and
`AddWithAliases` operations with non-empty alias names, starting from a
new registry, the invariants hold: every registered name (canonical or
alias) appears in the order list exactly once, every alias-map key
targets a name with a canonical entry in the action map, and no alias
target is itself an alias key (chains never exceed one indirection). -/
theorem registryInvariantsHold (ops : List RegOp)
    (hops : ∀ op ∈ ops, opAliasesNonempty op) :
    (∀ n, (n ∈ keysOf ((runOps emptyRegistry ops).1).actions ∨
           n ∈ keysOf ((runOps emptyRegistry ops).1).aliases) →
      ((runOps emptyRegistry ops).1).order.count n = 1) ∧
    (∀ p ∈ ((runOps emptyRegistry ops).1).aliases,
      p.2 ∈ keysOf ((runOps emptyRegistry ops).1).actions) ∧
    (∀ p ∈ ((runOps emptyRegistry ops).1).aliases,
      p.2 ∉ keysOf ((runOps emptyRegistry ops).1).aliases) := by
  have hWF : ((runOps emptyRegistry ops).1).WF :=
    WF_runOps ops emptyRegistry (by decide) hops
  obtain ⟨h1, h2, h3, h4, h5, h6, h7, h8, h9⟩ := hWF
  refine ⟨?_, h2, ?_⟩
  · intro n hn
    have hmem : n ∈ ((runOps emptyRegistry ops).1).order := by
      rcases hn with hn | hn
      · exact h8 n hn
      · exact h9 n hn
    exact List.count_eq_one_of_mem h6 hmem
  · intro p hp hmem
    have ht := h2 p hp
    rw [mem_keysOf_iff] at hmem
    obtain ⟨t, htm⟩ := hmem
    exact h3 (p.2, t) htm ht

def c7ActOne : CAction :=
  { Name := "one", AliasedName := "",
    Command := some (Cmd.leaf (some { Name := "one", Purpose := "", Aliases := ["uno"] })),
    Aliases := ["uno"], Replacement := "" }

def c7WitnessOps : List RegOp :=
  [RegOp.addWithAliases c7ActOne, RegOp.addAlias "one" "eins"]

theorem registryInvariantsHoldWitness :
    (∀ op ∈ c7WitnessOps, opAliasesNonempty op) ∧
    (∀ p ∈ ((runOps emptyRegistry c7WitnessOps).1).aliases,
      p.2 ∈ keysOf ((runOps emptyRegistry c7WitnessOps).1).actions) :=
  ⟨by decide, (registryInvariantsHold c7WitnessOps (by decide)).2.1⟩

/-! ### Claim C8 — Names returns the insertion order -/

/-- C8: for every sequence of registrations that all succeed
(non-colliding), `Names` on the resulting registry is exactly the
concatenation, in call order, of the names each call registered: the
canonical name for `Add`, the alias for `AddAlias`, and the canonical
name followed by the declared aliases for `AddWithAliases`.  (The Go
`Names` returns a defensive copy of the order slice; in this pure
embedding the copy is the value itself, so the mutation-safety half of
the claim is immediate.) -/
theorem namesMatchInsertionOrder (ops : List RegOp)
    (h : (runOps emptyRegistry ops).2 = true) :
    ((runOps emptyRegistry ops).1).Names = (ops.map registeredNames).flatten := by
  have horder := runOps_success_order ops emptyRegistry h
  simpa [RegistryT.Names, emptyRegistry] using horder

def c8ActOne : CAction :=
  { Name := "one", AliasedName := "",
    Command := some (Cmd.leaf (some { Name := "one", Purpose := "", Aliases := ["uno"] })),
    Aliases := ["uno"], Replacement := "" }

def c8ActTwo : CAction :=
  { Name := "two", AliasedName := "",
    Command := some (Cmd.leaf (some { Name := "two", Purpose := "", Aliases := [] })),
    Aliases := [], Replacement := "" }

def c8Ops : List RegOp :=
  [RegOp.addWithAliases c8ActOne, RegOp.add c8ActTwo, RegOp.addAlias "two" "deux"]

theorem namesMatchInsertionOrderWitness :
    (runOps emptyRegistry c8Ops).2 = true ∧
    ((runOps emptyRegistry c8Ops).1).Names = ["one", "uno", "two", "deux"] :=
  ⟨by decide, (namesMatchInsertionOrder c8Ops (by decide)).trans (by decide)⟩

/-! ### Claim C4 — the shape of an alias-view action -/

def c4Cmd : Cmd := Cmd.leaf (some { Name := "cmd", Purpose := "does things", Aliases := ["c"] })

def c4Act : CAction :=
  { Name := "cmd", AliasedName := "", Command := some c4Cmd,
    Aliases := ["c"], Replacement := "newcmd" }

def c4Reg : Registry :=
  { order := ["cmd", "c"], actions := [("cmd", c4Act)],
    aliases := [("c", "cmd")], defaultName := "" }

/-- C4 counterexample: looking up the alias `c` of the canonical action
`cmd` (which carries `Aliases = ["c"]` and `Replacement = "newcmd"`)
returns an alias view whose `Aliases` and `Replacement` are the zero
values, not the canonical action's — `NewAlias` copies only `Name`,
`AliasedName` and `Command`.  So the view does not differ from the
canonical action "only in Name and AliasedName". -/
theorem aliasViewDropsFields :
    (c4Reg.lookUp "c").2 = true ∧
    (c4Reg.lookUp "c").1.Replacement = "" ∧ c4Act.Replacement = "newcmd" ∧
    (c4Reg.lookUp "c").1.Aliases = [] ∧ c4Act.Aliases = ["c"] :=
  ⟨by decide, by decide, by decide, by decide, by decide⟩

/-- C4 (amended): for every registered canonical action and alias name
bound to it, lookup by the alias returns exactly the alias view built by
`NewAlias`: `Name` is the alias, `AliasedName` is the canonical name,
the wrapped `Command` is the identical shared command value (never a
copy), and the remaining fields `Aliases` and `Replacement` are reset to
their zero values rather than inherited. -/
theorem aliasViewShape (reg : Registry) (al nm : String) (a : CAction)
    (h1 : mapLookup reg.actions al = none)
    (h2 : mapLookup reg.aliases al = some nm)
    (h3 : mapLookup reg.actions nm = some a) :
    reg.lookUp al =
      ({ Name := al, AliasedName := a.Name, Command := a.Command,
         Aliases := [], Replacement := "" }, true) := by
  simp [RegistryT.lookUp, h1, h2, h3, ActionT.NewAlias]

theorem aliasViewShapeWitness :
    mapLookup c4Reg.actions "c" = none ∧
    mapLookup c4Reg.aliases "c" = some "cmd" ∧
    mapLookup c4Reg.actions "cmd" = some c4Act ∧
    c4Reg.lookUp "c" =
      ({ Name := "c", AliasedName := c4Act.Name, Command := c4Act.Command,
         Aliases := [], Replacement := "" }, true) :=
  ⟨rfl, rfl, rfl, aliasViewShape c4Reg "c" "cmd" c4Act rfl rfl rfl⟩

/-! ### Claim C5 — error classification in the run step -/

/-- Whether a log line was emitted at error level. -/
def isErrorLog : LogMsg → Bool
  | LogMsg.logError _ => true
  | LogMsg.logInfo _ => false

/-- C5: the run step returns `ErrSilent` and pass-through errors
unchanged; every other non-nil error is logged at error level exactly
once at this layer and replaced by the `ErrSilent` sentinel; and no
error value other than nil, the sentinel, or a pass-through error ever
escapes the run step. -/
theorem runStepErrorPolicy (e : Option GoErr) :
    (e = some GoErr.errSilent → (SuperCommandRun e).1 = e) ∧
    (∀ n : Int, e = some (GoErr.rcPassthrough n) → (SuperCommandRun e).1 = e) ∧
    (∀ x : GoErr, e = some x → x ≠ GoErr.errSilent → IsRcPassthroughError x = false →
      (SuperCommandRun e).1 = some GoErr.errSilent ∧
      ((SuperCommandRun e).2.filter isErrorLog).length = 1) ∧
    ((SuperCommandRun e).1 = none ∨ (SuperCommandRun e).1 = some GoErr.errSilent ∨
      ∃ n : Int, (SuperCommandRun e).1 = some (GoErr.rcPassthrough n)) := by
  cases e with
  | none => simp [SuperCommandRun]
  | some x =>
    cases x with
    | errSilent => simp [SuperCommandRun]
    | rcPassthrough n =>
      refine ⟨by simp, fun m hm => by simp [SuperCommandRun, IsRcPassthroughError], ?_, ?_⟩
      · intro y hy hne hpass
        simp at hy
        subst hy
        simp [IsRcPassthroughError] at hpass
      · exact Or.inr (Or.inr ⟨n, by simp [SuperCommandRun, IsRcPassthroughError]⟩)
    | unrecognized nm =>
      exact ⟨by simp, fun m hm => by simp at hm, fun y hy hne hpass => by
        simp at hy
        subst hy
        simp [SuperCommandRun, IsRcPassthroughError, isErrorLog],
        Or.inr (Or.inl (by simp [SuperCommandRun, IsRcPassthroughError]))⟩
    | execError m =>
      exact ⟨by simp, fun m hm => by simp at hm, fun y hy hne hpass => by
        simp at hy
        subst hy
        simp [SuperCommandRun, IsRcPassthroughError, isErrorLog],
        Or.inr (Or.inl (by simp [SuperCommandRun, IsRcPassthroughError]))⟩
    | exitError ex st =>
      exact ⟨by simp, fun m hm => by simp at hm, fun y hy hne hpass => by
        simp at hy
        subst hy
        simp [SuperCommandRun, IsRcPassthroughError, isErrorLog],
        Or.inr (Or.inl (by simp [SuperCommandRun, IsRcPassthroughError]))⟩
    | goError m =>
      exact ⟨by simp, fun m hm => by simp at hm, fun y hy hne hpass => by
        simp at hy
        subst hy
        simp [SuperCommandRun, IsRcPassthroughError, isErrorLog],
        Or.inr (Or.inl (by simp [SuperCommandRun, IsRcPassthroughError]))⟩

theorem runStepErrorPolicyWitness :
    GoErr.goError "boom" ≠ GoErr.errSilent ∧
    IsRcPassthroughError (GoErr.goError "boom") = false ∧
    (SuperCommandRun (some (GoErr.goError "boom"))).1 = some GoErr.errSilent ∧
    ((SuperCommandRun (some (GoErr.goError "boom"))).2.filter isErrorLog).length = 1 := by
  have h := (runStepErrorPolicy (some (GoErr.goError "boom"))).2.2.1
    (GoErr.goError "boom") rfl (by decide) (by decide)
  exact ⟨by decide, by decide, h.1, h.2⟩

/-! ### Claim C6 — plugin exit-code passthrough and spawn failure -/

/-- C6: the plugin adapter's `Run` turns a child process that spawned
and exited with status `n` into a pass-through error carrying exactly
`n`; and when the executable cannot be located or spawned (Go's
`*exec.Error`), `Plugins.RunPlugin` instead returns the
unrecognized-command condition naming the subcommand — the same error
shape the dispatcher's ordinary command-not-found path produces, so the
two are indistinguishable downstream. -/
theorem pluginExitPassthroughAndSpawnFailure :
    (∀ n : Int, PluginCommandRun (some (GoErr.exitError true n)) =
      some (GoErr.rcPassthrough n)) ∧
    (∀ msg sub : String,
      PluginsRunPlugin none (some (GoErr.execError msg)) sub =
        some (GoErr.unrecognized sub)) :=
  ⟨fun _ => rfl, fun _ _ => rfl⟩

/-! ### Claim C9 — description gathering is order-independent -/

lemma describeOne_name (probe : String → ProbeResult) (p : String) :
    (describeOne probe p).name = p := by
  unfold describeOne
  cases probe p <;> rfl

lemma gather_eq_none_iff (pfx : String) (probe : String → ProbeResult) :
    ∀ (l : List String) (k : String),
    gatherDescriptions pfx (l.map (describeOne probe)) k = none ↔
      ∀ p ∈ l, stripName pfx p ≠ k := by
  intro l
  induction l with
  | nil =>
    intro k
    simp [gatherDescriptions]
  | cons q rest ih =>
    intro k
    simp only [List.map_cons, gatherDescriptions]
    cases hg : gatherDescriptions pfx (rest.map (describeOne probe)) k with
    | some d =>
      constructor
      · intro h
        simp at h
      · intro hall
        exfalso
        have hnone : gatherDescriptions pfx (rest.map (describeOne probe)) k = none :=
          (ih k).2 (fun p hp => hall p (by simp [hp]))
        rw [hnone] at hg
        cases hg
    | none =>
      rw [describeOne_name]
      by_cases hk : k = stripName pfx q
      · rw [if_pos hk]
        constructor
        · intro h
          simp at h
        · intro hall
          exact absurd hk.symm (hall q (by simp))
      · rw [if_neg hk]
        constructor
        · intro _ p hp
          rcases List.mem_cons.1 hp with rfl | hp2
          · exact fun hc => hk hc.symm
          · exact (ih k).1 hg p hp2
        · intro _
          rfl


lemma gather_some_inv (pfx : String) (probe : String → ProbeResult) :
    ∀ (l : List String) (k d : String),
    gatherDescriptions pfx (l.map (describeOne probe)) k = some d →
    ∃ p ∈ l, stripName pfx p = k ∧ d = (describeOne probe p).description := by
  intro l
  induction l with
  | nil =>
    intro k d h
    simp [gatherDescriptions] at h
  | cons q rest ih =>
    intro k d h
    simp only [List.map_cons, gatherDescriptions] at h
    cases hg : gatherDescriptions pfx (rest.map (describeOne probe)) k with
    | some d2 =>
      rw [hg] at h
      simp at h
      obtain ⟨p, hp, hk, hd⟩ := ih k d2 hg
      exact ⟨p, by simp [hp], hk, h ▸ hd⟩
    | none =>
      rw [hg, describeOne_name] at h
      by_cases hk : k = stripName pfx q
      · rw [if_pos hk] at h
        simp at h
        exact ⟨q, by simp, hk.symm, h.symm⟩
      · rw [if_neg hk] at h
        cases h

lemma gather_mem_eq (pfx : String) (probe : String → ProbeResult) :
    ∀ (l : List String) (k p : String),
    (∀ x ∈ l, ∀ y ∈ l, stripName pfx x = stripName pfx y → x = y) →
    p ∈ l → stripName pfx p = k →
    gatherDescriptions pfx (l.map (describeOne probe)) k =
      some (describeOne probe p).description := by
  intro l
  induction l with
  | nil =>
    intro k p _ hp
    simp at hp
  | cons q rest ih =>
    intro k p hinj hp hk
    simp only [List.map_cons, gatherDescriptions]
    cases hg : gatherDescriptions pfx (rest.map (describeOne probe)) k with
    | some d =>
      obtain ⟨p2, hp2, hk2, hd⟩ := gather_some_inv pfx probe rest k d hg
      have hpp : p2 = p :=
        hinj p2 (by simp [hp2]) p hp (by rw [hk2, hk])
      rw [hd, hpp]
    | none =>
      have hq : p = q := by
        rcases List.mem_cons.1 hp with rfl | hp2
        · rfl
        · exact absurd hk ((gather_eq_none_iff pfx probe rest k).1 hg p hp2)
      subst hq
      rw [describeOne_name, if_pos hk.symm]

/-- C9: the fan-in aggregation of `Plugins.Descriptions` is
order-independent.  For discovered plugin lists (whose names determine
their prefix-stripped keys injectively, as discovery guarantees since
every discovered name begins with the configured prefix), any two
arrival orders of the per-plugin probe results produce the same final
mapping; and the mapping carries, under each discovered name with the
prefix stripped, exactly the probe result for that plugin — the output
up to the first line break on success, or the fixed-format failure
string naming the plugin and the `--description` flag on failure, as
computed by `describeOne`. -/
theorem descriptionsOrderIndependent (pfx : String) (probe : String → ProbeResult)
    (l1 l2 : List String) (hperm : l1.Perm l2)
    (hinj : ∀ x ∈ l1, ∀ y ∈ l1, stripName pfx x = stripName pfx y → x = y) :
    PluginsDescriptions pfx probe l1 = PluginsDescriptions pfx probe l2 ∧
    (∀ p ∈ l1, PluginsDescriptions pfx probe l1 (stripName pfx p) =
      some (describeOne probe p).description) := by
  have hinj2 : ∀ x ∈ l2, ∀ y ∈ l2, stripName pfx x = stripName pfx y → x = y :=
    fun x hx y hy => hinj x (hperm.symm.subset hx) y (hperm.symm.subset hy)
  constructor
  · funext k
    show gatherDescriptions pfx (l1.map (describeOne probe)) k =
      gatherDescriptions pfx (l2.map (describeOne probe)) k
    by_cases hex : ∃ p ∈ l1, stripName pfx p = k
    · obtain ⟨p, hp, hk⟩ := hex
      rw [gather_mem_eq pfx probe l1 k p hinj hp hk,
          gather_mem_eq pfx probe l2 k p hinj2 (hperm.subset hp) hk]
    · push_neg at hex
      rw [(gather_eq_none_iff pfx probe l1 k).2 hex,
          (gather_eq_none_iff pfx probe l2 k).2 (fun p hp => hex p (hperm.symm.subset hp))]
  · intro p hp
    exact gather_mem_eq pfx probe l1 (stripName pfx p) p hinj hp rfl

def c9Probe : String → ProbeResult :=
  fun p =>
    if p = "juju-err" then ProbeResult.err "exit status 1"
    else ProbeResult.ok (p ++ " description" ++ String.singleton (Char.ofNat 10) ++ "extra")

theorem descriptionsOrderIndependentWitness :
    (["juju-foo", "juju-err"].Perm ["juju-err", "juju-foo"]) ∧
    (∀ x ∈ ["juju-foo", "juju-err"], ∀ y ∈ ["juju-foo", "juju-err"],
      stripName "juju-" x = stripName "juju-" y → x = y) ∧
    PluginsDescriptions "juju-" c9Probe ["juju-foo", "juju-err"] =
      PluginsDescriptions "juju-" c9Probe ["juju-err", "juju-foo"] := by
  have hperm : (["juju-foo", "juju-err"].Perm ["juju-err", "juju-foo"]) := by decide
  have hinj : ∀ x ∈ ["juju-foo", "juju-err"], ∀ y ∈ ["juju-foo", "juju-err"],
      stripName "juju-" x = stripName "juju-" y → x = y := by decide
  exact ⟨hperm, hinj,
    (descriptionsOrderIndependent "juju-" c9Probe _ _ hperm hinj).1⟩

/-! ### Claim C10 — Register panics rather than returning errors -/

def c10EmptyNameCmd : Cmd := Cmd.leaf (some { Name := "", Purpose := "", Aliases := [] })

/-- C10 counterexample: for a subcommand whose `Info().Name` is the
empty string, the name is free in a fresh registry (lookup reports not
found), yet `Register` panics — the action fails validation — so
"return normally exactly when the subcommand's name and all its aliases
are free" is false as stated. -/
theorem registerPanicsOnFreeEmptyName :
    (emptyRegistry.LookUp [""]).2 = false ∧
    SuperCommandRegister emptyRegistry (some c10EmptyNameCmd) =
      RegisterOutcome.panicked "action missing name" :=
  ⟨by decide, rfl⟩

/-- C10 (amended): `Register` and `RegisterDeprecated` never surface a
registration error to the caller — a failed `AddWithAliases` (duplicate
or colliding name, or an invalid action such as an empty name) becomes a
panic carrying the error's message; a nil subcommand is silently ignored
leaving the registry unchanged; `Register` returns normally exactly when
`AddWithAliases` succeeds; `RegisterDeprecated` additionally returns
normally without registering when the check reports the command
obsolete, and panics with a nil-interface dereference when no check is
supplied. -/
theorem registerPanicsNotErrors (reg : Registry) (c : Cmd) (a : CAction)
    (chk : DeprecationCheckData) (hact : newActionFromCommand c = some a) :
    (SuperCommandRegister reg none = RegisterOutcome.returned reg) ∧
    (SuperCommandRegisterDeprecated reg none (some chk) = RegisterOutcome.returned reg) ∧
    ((reg.AddWithAliases a).2 = none →
      SuperCommandRegister reg (some c) =
        RegisterOutcome.returned (reg.AddWithAliases a).1) ∧
    (∀ e, (reg.AddWithAliases a).2 = some e →
      SuperCommandRegister reg (some c) = RegisterOutcome.panicked e) ∧
    (chk.obsolete = true →
      SuperCommandRegisterDeprecated reg (some c) (some chk) =
        RegisterOutcome.returned reg) ∧
    (SuperCommandRegisterDeprecated reg (some c) none =
      RegisterOutcome.panicked nilCheckMsg) ∧
    (chk.obsolete = false → chk.deprecated = false → (reg.AddWithAliases a).2 = none →
      SuperCommandRegisterDeprecated reg (some c) (some chk) =
        RegisterOutcome.returned (reg.AddWithAliases a).1) := by
  refine ⟨rfl, rfl, ?_, ?_, ?_, ?_, ?_⟩
  · intro h
    rcases hA : reg.AddWithAliases a with ⟨reg1, e⟩
    rw [hA] at h
    simp at h
    subst h
    simp [SuperCommandRegister, hact, hA]
  · intro e he
    rcases hA : reg.AddWithAliases a with ⟨reg1, e2⟩
    rw [hA] at he
    simp at he
    subst he
    simp [SuperCommandRegister, hact, hA]
  · intro hobs
    simp [SuperCommandRegisterDeprecated, hact, hobs]
  · simp [SuperCommandRegisterDeprecated, hact]
  · intro hobs hdep h
    rcases hA : reg.AddWithAliases a with ⟨reg1, e⟩
    rw [hA] at h
    simp at h
    subst h
    simp [SuperCommandRegisterDeprecated, hact, hobs, hdep, hA]

def c10Cmd : Cmd := Cmd.leaf (some { Name := "wrk", Purpose := "work", Aliases := [] })

def c10Act : CAction :=
  { Name := "wrk", AliasedName := "", Command := some c10Cmd,
    Aliases := [], Replacement := "" }

theorem registerPanicsNotErrorsWitness :
    newActionFromCommand c10Cmd = some c10Act ∧
    (emptyRegistry.AddWithAliases c10Act).2 = none ∧
    SuperCommandRegister emptyRegistry (some c10Cmd) =
      RegisterOutcome.returned (emptyRegistry.AddWithAliases c10Act).1 :=
  ⟨rfl, rfl,
   (registerPanicsNotErrors emptyRegistry c10Cmd c10Act
     ⟨false, false, ""⟩ rfl).2.2.1 rfl⟩

